import Mathlib

/-!
Verification development for the Pays Bigouden calendar generator
(`src/generate-calendar.js`).

The script scrapes event pages, extracts an embedded HwSheet object-literal
JavaScript object literal from raw HTML, normalizes it into a canonical
event record, resolves date occurrences into concrete start/end instants,
filters unwanted events, deduplicates by `sheetId` and emits one calendar
entry per resolved occurrence.

The shallow embedding below models text as `List Char`, JSON values as an
inductive `Json`, instants as a calendar day (`Int`) paired with a
minute-of-day (`Nat`) in the single configured timezone, and the ambient
current time (`new Date()` at the expiry check) as an explicit `now`
parameter measured in minutes.
-/

/-! ## JSON values and their serialized text

`Json` models the structured value embedded in a page.  `serializeJson`
renders a value as the literal text that a page would embed (compact form,
strings rendered verbatim between quotes).  `parseJson` is the model of the
runtime deserializer `JSON.parse` used by the extractor: it accepts exactly
a whole literal in that compact form and is executable. -/

def natChars (n : Nat) : List Char :=
  if n = 0 then ['0'] else ((Nat.digits 10 n).map Nat.digitChar).reverse

def intChars (n : Int) : List Char :=
  if n < 0 then '-' :: natChars n.natAbs else natChars n.toNat

inductive Json where
  | null : Json
  | bool (b : Bool) : Json
  | num (n : Int) : Json
  | str (s : List Char) : Json
  | arr (elems : List Json) : Json
  | obj (fields : List (List Char × Json)) : Json

mutual

def serializeJson : Json → List Char
  | .null => "null".toList
  | .bool true => "true".toList
  | .bool false => "false".toList
  | .num n => intChars n
  | .str s => '"' :: (s ++ ['"'])
  | .arr es => '[' :: serializeElems es
  | .obj fs => '{' :: serializeFields fs

def serializeElems : List Json → List Char
  | [] => [']']
  | e :: es => serializeJson e ++ (if es.isEmpty then [']'] else ',' :: serializeElems es)

def serializeFields : List (List Char × Json) → List Char
  | [] => ['}']
  | (k, v) :: fs =>
    '"' :: k ++ '"' :: ':' :: serializeJson v ++ (if fs.isEmpty then ['}'] else ',' :: serializeFields fs)

end

/- Size measure of a value, used as a fuel bound for the parser. -/
mutual

def jsizeVal : Json → Nat
  | .arr es => 1 + jsizeElems es
  | .obj fs => 1 + jsizeFields fs
  | _ => 1

def jsizeElems : List Json → Nat
  | [] => 0
  | e :: es => 1 + jsizeVal e + jsizeElems es

def jsizeFields : List (List Char × Json) → Nat
  | [] => 0
  | (_, v) :: fs => 1 + jsizeVal v + jsizeFields fs

end

/-- A string character the compact serialization renders verbatim and the
modelled deserializer reads back verbatim: not a brace, not a quote, not a
backslash, not a control character. -/
def strOkChar (c : Char) : Bool :=
  !(c == '{' || c == '}' || c == '"' || c == '\\' || decide (c.toNat < 32))

def strOk (s : List Char) : Bool := s.all strOkChar

/- Values whose strings (keys included) contain only verbatim characters;
in particular no delimiter-like characters inside string contents. -/
mutual

def jsonOk : Json → Bool
  | .null => true
  | .bool _ => true
  | .num _ => true
  | .str s => strOk s
  | .arr es => elemsOk es
  | .obj fs => fieldsOk fs

def elemsOk : List Json → Bool
  | [] => true
  | e :: es => jsonOk e && elemsOk es

def fieldsOk : List (List Char × Json) → Bool
  | [] => true
  | (k, v) :: fs => strOk k && jsonOk v && fieldsOk fs

end

def parseStringBody : List Char → Option (List Char × List Char)
  | [] => none
  | c :: rest =>
    if c = '"' then some ([], rest)
    else (parseStringBody rest).map (fun p => (c :: p.1, p.2))

def parseNatTok (cs : List Char) : Option (Nat × List Char) :=
  let ds := cs.takeWhile Char.isDigit
  if ds.isEmpty then none
  else some (ds.foldl (fun a c => a * 10 + (c.toNat - 48)) 0, cs.dropWhile Char.isDigit)

mutual

def parseVal : Nat → List Char → Option (Json × List Char)
  | 0, _ => none
  | fuel + 1, cs =>
    match cs with
    | '{' :: rest =>
      (match rest with
       | '}' :: rest2 => some (Json.obj [], rest2)
       | _ => (parseFields fuel rest).map (fun p => (Json.obj p.1, p.2)))
    | '[' :: rest =>
      (match rest with
       | ']' :: rest2 => some (Json.arr [], rest2)
       | _ => (parseElems fuel rest).map (fun p => (Json.arr p.1, p.2)))
    | '"' :: rest => (parseStringBody rest).map (fun p => (Json.str p.1, p.2))
    | '-' :: rest => (parseNatTok rest).map (fun p => (Json.num (-(p.1 : Int)), p.2))
    | c :: rest =>
      if c.isDigit then (parseNatTok (c :: rest)).map (fun p => (Json.num (p.1 : Int), p.2))
      else if ("true".toList).isPrefixOf (c :: rest) then some (Json.bool true, (c :: rest).drop 4)
      else if ("false".toList).isPrefixOf (c :: rest) then some (Json.bool false, (c :: rest).drop 5)
      else if ("null".toList).isPrefixOf (c :: rest) then some (Json.null, (c :: rest).drop 4)
      else none
    | [] => none

def parseElems : Nat → List Char → Option (List Json × List Char)
  | 0, _ => none
  | fuel + 1, cs =>
    (parseVal fuel cs).bind (fun p =>
      match p.2 with
      | ',' :: r2 => (parseElems fuel r2).map (fun q => (p.1 :: q.1, q.2))
      | ']' :: r2 => some ([p.1], r2)
      | _ => none)

def parseFields : Nat → List Char → Option (List (List Char × Json) × List Char)
  | 0, _ => none
  | fuel + 1, cs =>
    match cs with
    | '"' :: rest =>
      (parseStringBody rest).bind (fun pk =>
        match pk.2 with
        | ':' :: r2 =>
          (parseVal fuel r2).bind (fun pv =>
            match pv.2 with
            | ',' :: r4 => (parseFields fuel r4).map (fun q => ((pk.1, pv.1) :: q.1, q.2))
            | '}' :: r4 => some ([(pk.1, pv.1)], r4)
            | _ => none)
        | _ => none)
    | _ => none

end

/-- Model of `JSON.parse` as used by the extractor: deserialize the whole
span or fail. -/
def parseJson (cs : List Char) : Option Json :=
  match parseVal (cs.length + 1) cs with
  | some (v, []) => some v
  | _ => none

/-! ## Structured-data extractor (`extractHwSheetFromHtml`, lines 28-57) -/

/-- The marker string passed to indexOf at line 29: the ten characters
of the assignment text followed by an opening brace. -/
def markerChars : List Char := "HwSheet = ".toList ++ ['{']

def idxGo (pat : List Char) : List Char → Nat → Option Nat
  | [], n => if pat.isPrefixOf [] then some n else none
  | c :: t, n => if pat.isPrefixOf (c :: t) then some n else idxGo pat t (n + 1)

/-- `hay.indexOf(pat)`: index of the first occurrence, `none` for `-1`. -/
def strIndexOf (hay pat : List Char) : Option Nat := idxGo pat hay 0

/-- The brace-counting loop of lines 34-49, scanning the document from the
marker position: `bc` is `braceCount`, `started` records whether an opening
brace was seen, `i` counts consumed characters.  Returns the relative
position one past the closing brace where the balance first returns to
zero, or `none` when the loop runs off the end without breaking. -/
def scanLoop : List Char → Int → Bool → Nat → Option Nat
  | [], _, _, _ => none
  | c :: cs, bc, started, i =>
    if c = '{' then scanLoop cs (bc + 1) true (i + 1)
    else if c = '}' then
      if started && (bc - 1 == 0) then some (i + 1)
      else scanLoop cs (bc - 1) started (i + 1)
    else scanLoop cs bc started (i + 1)

/-- `extractHwSheetFromHtml` (lines 28-57): locate the marker, scan
for the balancing close brace, take the span `substring(startIndex + 10,
endIndex)` and deserialize it; any failure yields `none`. -/
def extractHwSheetFromHtml (html : List Char) : Option Json :=
  match strIndexOf html markerChars with
  | none => none
  | some startIndex =>
    let endIndex : Nat :=
      match scanLoop (html.drop startIndex) 0 false 0 with
      | some rel => startIndex + rel
      | none => startIndex + 10
    parseJson ((html.drop (startIndex + 10)).take (endIndex - (startIndex + 10)))

/-! ## Canonical event data model

Calendar dates in the source are ISO date strings; the embedding abstracts
them as `Int` day numbers (days since the epoch in the configured
timezone), so `new Date(dateString)` is day `d` at minute 0 and comparison
of parsed dates is comparison of day numbers.  Free-text start times stay
as character lists since the resolver pattern-matches them.  JavaScript
`undefined`/`null` fields are `Option`; string truthiness (empty string is
falsy) is `jsTruthy`. -/

def jsTruthy (o : Option (List Char)) : Bool :=
  match o with
  | some s => !s.isEmpty
  | none => false

/-- `a || b` on optional strings. -/
def jsOrS (a b : Option (List Char)) : Option (List Char) :=
  if jsTruthy a then a else b

/-- `a || b` on optional abstract dates (a present date is truthy). -/
def jsOrD (a b : Option Int) : Option Int :=
  match a with
  | some x => some x
  | none => b

structure DateOccurrence where
  oneday : Bool
  startDate : Option Int
  startTime : Option (List Char)
  endDate : Option Int
deriving DecidableEq

structure Gps where
  latitude : Option (List Char)
  longitude : Option (List Char)
deriving DecidableEq

structure Phone where
  number : List Char
deriving DecidableEq

structure Event where
  sheetId : List Char
  bordereau : Option (List Char)
  title : Option (List Char)
  type : Option (List Char)
  description : Option (List Char)
  town : Option (List Char)
  address : Option (List Char)
  gps : Option Gps
  phone : Option Phone
  dates : List DateOccurrence
  url : Option (List Char)
deriving DecidableEq

/-! ## Raw `HwSheet` record and the normalizer (`transformHwSheetToEvent`,
lines 59-108) -/

structure Schedule where
  startTime : Option (List Char)
deriving DecidableEq

structure FormatedDay where
  schedules : List Schedule
deriving DecidableEq

structure DaySlot where
  schedules : List Schedule
deriving DecidableEq

structure DayGroup where
  days : List DaySlot
deriving DecidableEq

structure Period where
  startDate : Option Int
  startDateU : Option Int
  endDate : Option Int
  endDateU : Option Int
  formatedDays : Option (List FormatedDay)
  days : Option (List DayGroup)
  isOneDay : Option Bool
deriving DecidableEq

structure OpeningPeriods where
  periods : List Period
deriving DecidableEq

structure Establishment where
  address1 : Option (List Char)
  address2 : Option (List Char)
  zipCode : Option (List Char)
  commune : Option (List Char)
  phones : List (List Char)
deriving DecidableEq

structure Contacts where
  establishment : Option Establishment
deriving DecidableEq

structure Geolocations where
  latitude : Option (List Char)
  longitude : Option (List Char)
deriving DecidableEq

structure HwSheet where
  sheetId : List Char
  bordereau : Option (List Char)
  businessName : Option (List Char)
  type : Option (List Char)
  description : Option (List Char)
  locality : Option (List Char)
  contacts : Option Contacts
  geolocations : Option Geolocations
  openingPeriods : Option OpeningPeriods
deriving DecidableEq

/-- Replace the first `':'` by `'h'`: `s.replace(":", "h")` with a string
pattern replaces only the first occurrence. -/
def replaceFirstColon : List Char → List Char
  | [] => []
  | c :: rest => if c = ':' then 'h' :: rest else c :: replaceFirstColon rest

/-- `period._formated_days?.[0]?.schedules?.[0]?.startTime ||
period.days?.[0]?.days?.[0]?.schedules?.[0]?.startTime` (lines 64-66). -/
def periodRawStartTime (period : Period) : Option (List Char) :=
  jsOrS
    (((period.formatedDays.bind List.head?).bind (fun fd => fd.schedules.head?)).bind Schedule.startTime)
    ((((period.days.bind List.head?).bind (fun g => g.days.head?)).bind (fun s => s.schedules.head?)).bind Schedule.startTime)

/-- One element of the `dates` array built from a period (lines 61-80). -/
def periodToDateOccurrence (period : Period) : DateOccurrence :=
  let startTime := periodRawStartTime period
  { oneday := period.isOneDay.getD false
    startDate := jsOrD period.startDate period.startDateU
    startTime :=
      if jsTruthy startTime then
        some (("à ".toList) ++ replaceFirstColon ((startTime.getD []).take 5))
      else none
    endDate := jsOrD period.endDate period.endDateU }

/-- `transformHwSheetToEvent` (lines 59-108). -/
def transformHwSheetToEvent (hwSheet : HwSheet) (url : List Char) : Event :=
  let establishment := hwSheet.contacts.bind Contacts.establishment
  { sheetId := hwSheet.sheetId
    bordereau := hwSheet.bordereau
    title := hwSheet.businessName
    type := hwSheet.type
    description := hwSheet.description
    town := hwSheet.locality
    address :=
      jsOrS (establishment.bind Establishment.address1)
        (jsOrS (establishment.bind Establishment.address2)
          (if jsTruthy (establishment.bind Establishment.zipCode) then
            some (((establishment.bind Establishment.zipCode).getD []) ++ ' ' ::
              (if jsTruthy (establishment.bind Establishment.commune) then
                (establishment.bind Establishment.commune).getD []
              else []))
          else none))
    gps := hwSheet.geolocations.map (fun g => { latitude := g.latitude, longitude := g.longitude })
    phone :=
      if jsTruthy ((establishment.map Establishment.phones).bind List.head?) then
        some { number := ((establishment.map Establishment.phones).bind List.head?).getD [] }
      else none
    dates := ((hwSheet.openingPeriods.map OpeningPeriods.periods).getD []).map periodToDateOccurrence
    url := some url }

/-! ## Event filter (`isEventTooLong` lines 121-141, `isExposition` lines
143-146, applied at line 164 of `fetchEventFromUrl`) -/

def lowerChar (c : Char) : Char :=
  if 'A' ≤ c && c ≤ 'Z' then Char.ofNat (c.toNat + 32) else c

def lowerStr (s : List Char) : List Char := s.map lowerChar

/-- `hay.includes(needle)`. -/
def includesSub (hay needle : List Char) : Bool :=
  match hay with
  | [] => needle.isPrefixOf []
  | _ :: t => needle.isPrefixOf hay || includesSub t needle

def isExposition (event : Event) : Bool :=
  let title := lowerStr (event.title.getD [])
  includesSub title ("expo".toList) || includesSub title ("exhibition".toList)

def insertSorted (x : Int) : List Int → List Int
  | [] => [x]
  | y :: ys => if x ≤ y then x :: y :: ys else y :: insertSorted x ys

/-- `Array.prototype.sort()` on parsed dates; ISO date strings sort
lexicographically, which is chronological order, so the model sorts the
abstract day numbers ascending. -/
def sortInts (l : List Int) : List Int := l.foldr insertSorted []

def isEventTooLong (event : Event) : Bool :=
  if event.dates.isEmpty then false
  else if event.dates.any (fun d =>
      match d.startDate, d.endDate with
      | some s, some e => decide ((e - s : Int) > 31)
      | _, _ => false) then true
  else
    let ds := sortInts (event.dates.filterMap DateOccurrence.startDate)
    if 2 ≤ ds.length then decide ((ds.getLastD 0 - ds.headD 0 : Int) > 31) else false

/-- The per-event exclusion filter applied by `fetchEventFromUrl` at line
164: `if (isEventTooLong(event) || isExposition(event)) return null`. -/
def eventExcluded (event : Event) : Bool :=
  isEventTooLong event || isExposition event

/-! ## Date occurrence resolver (`parseTime` lines 239-246,
`parseDateOccurrence` lines 248-275, `parseEventDates` lines 277-283) -/

structure TimeHM where
  hours : Nat
  minutes : Nat
deriving DecidableEq

/-- The optional `(\d\x7b2\x7d)?` minutes group tried right after the
separator: two digits or nothing. -/
def minutesOf : List Char → Nat
  | m1 :: m2 :: _ =>
    if m1.isDigit && m2.isDigit then 10 * (m1.toNat - 48) + (m2.toNat - 48) else 0
  | _ => 0

/-- Attempt of the pattern `(\d\x7b1,2\x7d)[h:](\d\x7b2\x7d)?` anchored at
the head of `cs`: the greedy two-digit hour first, backtracking to one
digit. -/
def matchTimeAt : List Char → Option TimeHM
  | c0 :: c1 :: c2 :: rest =>
    if c0.isDigit && c1.isDigit && (c2 == 'h' || c2 == ':') then
      some ⟨10 * (c0.toNat - 48) + (c1.toNat - 48), minutesOf rest⟩
    else if c0.isDigit && (c1 == 'h' || c1 == ':') then
      some ⟨c0.toNat - 48, minutesOf (c2 :: rest)⟩
    else none
  | [c0, c1] => if c0.isDigit && (c1 == 'h' || c1 == ':') then some ⟨c0.toNat - 48, 0⟩ else none
  | _ => none

/-- Leftmost match of the time pattern in the string. -/
def findTimeMatch : List Char → Option TimeHM
  | [] => none
  | c :: cs =>
    match matchTimeAt (c :: cs) with
    | some t => some t
    | none => findTimeMatch cs

/-- `parseTime` (lines 239-246). -/
def parseTime (timeString : Option (List Char)) : Option TimeHM :=
  timeString.bind findTimeMatch

/-- An instant: calendar day plus minute of day in the configured
timezone. -/
structure DateTime where
  day : Int
  minute : Nat
deriving DecidableEq

def DateTime.toMin (d : DateTime) : Int := d.day * 1440 + d.minute

/-- `d.setHours(h, m, 0, 0)`: keep the calendar day, set the time of day;
hour values of 24 or more roll over into following days. -/
def setHoursMin (d : DateTime) (h m : Nat) : DateTime :=
  ⟨d.day + (((h * 60 + m) / 1440 : Nat) : Int), (h * 60 + m) % 1440⟩

structure Resolved where
  start : DateTime
  «end» : DateTime
deriving DecidableEq

/-- The pure computation of `parseDateOccurrence` (lines 248-269) before
the expiry check. -/
def computeResolved (dateInfo : DateOccurrence) : Option Resolved :=
  match dateInfo.startDate with
  | none => none
  | some sd =>
    let startDate0 : DateTime := ⟨sd, 0⟩
    let endDate0 : DateTime :=
      match dateInfo.endDate with
      | some ed => ⟨ed, 0⟩
      | none => startDate0
    match parseTime dateInfo.startTime with
    | some t =>
      let startDate1 := setHoursMin startDate0 t.hours t.minutes
      if dateInfo.endDate.isNone || dateInfo.oneday then
        some ⟨startDate1, setHoursMin startDate1 (t.hours + 2) t.minutes⟩
      else some ⟨startDate1, endDate0⟩
    | none => some ⟨startDate0, endDate0⟩

/-- `parseDateOccurrence` (lines 248-275): the computation above followed
by the expiry check `if (endDate < new Date()) return null`, with the
current instant injected as `now`. -/
def parseDateOccurrence (now : Int) (dateInfo : DateOccurrence) : Option Resolved :=
  (computeResolved dateInfo).bind (fun r => if r.«end».toMin < now then none else some r)

/-- `parseEventDates` (lines 277-283). -/
def parseEventDates (now : Int) (event : Event) : List Resolved :=
  (event.dates.map (parseDateOccurrence now)).filterMap id

/-! ## Calendar entry identifiers (`generateCalendar` loop, lines 331-346) -/

def feedNamespace : List Char := "@pays-bigouden-calendar".toList

/-- The identifiers emitted for one event, in loop order: entry `i` gets
`id = sheetId-i@pays-bigouden-calendar` (line 335). -/
def generateEventIds (now : Int) (event : Event) : List (List Char) :=
  let dates := parseEventDates now event
  (List.range dates.length).map (fun i => event.sheetId ++ ('-' :: Nat.toDigits 10 i) ++ feedNamespace)

/-! ## Orchestrator deduplication (`fetchAllEvents`, lines 189-216) -/

/-- One step of the accumulation loop (lines 197-202): a `null` fetch
result is skipped; an event is appended only when its `sheetId` is not yet
in the map.  The JS `Map` keeps insertion order, so it is modelled as the
ordered list of its values. -/
def dedupStep (allEvents : List Event) (result : Option Event) : List Event :=
  match result with
  | none => allEvents
  | some event =>
    if allEvents.any (fun x => x.sheetId == event.sheetId) then allEvents
    else allEvents ++ [event]

/-- The deduplicated event list produced from the fetch results in
processing order. -/
def fetchAllEventsDedup (results : List (Option Event)) : List Event :=
  results.foldl dedupStep []

/-! ## Calendar entry location (`buildEventLocation`, lines 289-298) -/

/-- `address.replace(/\n/g, ", ")`. -/
def replaceNewlines : List Char → List Char
  | [] => []
  | c :: rest =>
    if c = '\n' then ',' :: ' ' :: replaceNewlines rest else c :: replaceNewlines rest

/-- `parts.join(" - ")`. -/
def joinParts : List (List Char) → List Char
  | [] => []
  | [p] => p
  | p :: ps => p ++ ' ' :: '-' :: ' ' :: joinParts ps

/-- `buildEventLocation` (lines 289-298). -/
def buildEventLocation (event : Event) : List Char :=
  joinParts
    ((if jsTruthy event.address then [replaceNewlines (event.address.getD [])] else []) ++
      (if jsTruthy event.town &&
          !(match event.address with
            | some a => includesSub a (event.town.getD [])
            | none => false) then [event.town.getD []] else []))

/-- Modelled from the claim's words, for comparison with
`buildEventLocation`: the address with newlines replaced by `", "`,
followed by `" - "` and the town exactly when the town is present and not
already a substring of the address; just the town when the address is
absent; empty when both are absent. -/
def locationSpecC10 (event : Event) : List Char :=
  if jsTruthy event.address then
    replaceNewlines (event.address.getD []) ++
      (if jsTruthy event.town && !includesSub (event.address.getD []) (event.town.getD []) then
        ' ' :: '-' :: ' ' :: event.town.getD []
      else [])
  else if jsTruthy event.town then event.town.getD []
  else []

/-! ## Concrete sample inputs used in witnesses and counterexamples -/

def occ14h30 : DateOccurrence :=
  { oneday := true, startDate := some 20000, startTime := some ("à 14h30".toList), endDate := none }

def occ23h30 : DateOccurrence :=
  { oneday := true, startDate := some 1, startTime := some ("à 23h30".toList), endDate := none }

def occEndBeforeStart : DateOccurrence :=
  { oneday := false, startDate := some 10, startTime := none, endDate := some 5 }

def occSameDayPair : DateOccurrence :=
  { oneday := false, startDate := some 10, startTime := none, endDate := some 12 }

def occPast : DateOccurrence :=
  { oneday := false, startDate := some 3, startTime := none, endDate := none }

def occSameDay : DateOccurrence :=
  { oneday := true, startDate := some 20000, startTime := none, endDate := none }

def baseEvent : Event :=
  { sheetId := "id".toList, bordereau := none, title := none, type := none, description := none,
    town := none, address := none, gps := none, phone := none, dates := [], url := none }

def ev123 : Event :=
  { baseEvent with
      sheetId := "123".toList
      dates := [occ14h30, { oneday := true, startDate := some 20001, startTime := none, endDate := none }] }

def evC4 : Event :=
  { baseEvent with
      title := some ("Concert de jazz".toList)
      type := some ("EXPOSITION".toList) }

def evExpoTitle : Event :=
  { baseEvent with title := some ("Grande EXPO d'été".toList) }

def concertEvent (n : Nat) : Event :=
  { baseEvent with
      title := some ("Concert".toList)
      dates := List.replicate n occSameDay }

def ev25 : Event := concertEvent 25

def hw9 : HwSheet :=
  { sheetId := "77".toList, bordereau := some ("FMA".toList), businessName := none, type := none,
    description := none, locality := none, contacts := none,
    geolocations := some { latitude := some ("47.8".toList), longitude := none },
    openingPeriods := none }

def evLoc : Event :=
  { baseEvent with
      town := some ("Quimper".toList)
      address := some ("3 rue X\nBP 12".toList) }

def dedupSample : List (Option Event) :=
  [some { baseEvent with sheetId := "A".toList },
   none,
   some { baseEvent with sheetId := "B".toList, title := some ("first".toList) },
   some { baseEvent with sheetId := "B".toList, title := some ("second".toList) },
   some { baseEvent with sheetId := "C".toList }]

/-- The guard under which the resolver's output satisfies `end >= start`:
any supplied end date must lie on or after the resolved start (for
occurrences without a parsed start time, on or after the start date),
unless the end is recomputed from the start (`oneday` with a parsed
time). -/
def c3Guard (d : DateOccurrence) : Bool :=
  match d.endDate with
  | none => true
  | some ed =>
    match d.startDate with
    | none => true
    | some sd =>
      match parseTime d.startTime with
      | some t => d.oneday || decide (sd * 1440 + ((t.hours * 60 + t.minutes : Nat) : Int) ≤ ed * 1440)
      | none => decide (sd ≤ ed)

/-- The object literal `\x7b"a":"\x7d"\x7d`: its string value contains a
closing brace. -/
def vBrace : Json := Json.obj [(['a'], Json.str ['}'])]

/-- A delimiter-free object literal `\x7b"k":"v"\x7d`. -/
def vPlain : Json := Json.obj [(['k'], Json.str ['v'])]

/-! ## Lemmas about the date occurrence resolver -/

theorem toMin_setHoursMin (d : DateTime) (h m : Nat) :
    (setHoursMin d h m).toMin = d.day * 1440 + (h * 60 + m : Nat) := by
  unfold setHoursMin DateTime.toMin
  have := Nat.div_add_mod (h * 60 + m) 1440
  push_cast
  omega

theorem setHoursMin_of_lt (d : DateTime) (h m : Nat) (hb : h * 60 + m < 1440) :
    setHoursMin d h m = ⟨d.day, h * 60 + m⟩ := by
  unfold setHoursMin
  rw [Nat.div_eq_of_lt hb, Nat.mod_eq_of_lt hb]
  simp

theorem computeResolved_time_recompute (d : DateOccurrence) (sd : Int) (t : TimeHM)
    (hsd : d.startDate = some sd) (ht : parseTime d.startTime = some t)
    (hre : d.endDate = none ∨ d.oneday = true) :
    computeResolved d =
      some ⟨setHoursMin ⟨sd, 0⟩ t.hours t.minutes,
            setHoursMin (setHoursMin ⟨sd, 0⟩ t.hours t.minutes) (t.hours + 2) t.minutes⟩ := by
  unfold computeResolved
  rw [hsd, ht]
  have hcond : (d.endDate.isNone || d.oneday) = true := by
    rcases hre with h | h
    · simp [h]
    · simp [h]
  simp [hcond]

theorem parseDateOccurrence_some (now : Int) (d : DateOccurrence) (r : Resolved) :
    parseDateOccurrence now d = some r ↔ computeResolved d = some r ∧ now ≤ r.«end».toMin := by
  unfold parseDateOccurrence
  rw [Option.bind_eq_some]
  constructor
  · rintro ⟨a, ha, hif⟩
    by_cases hlt : a.«end».toMin < now
    · rw [if_pos hlt] at hif; cases hif
    · rw [if_neg hlt] at hif
      rw [Option.some_inj] at hif
      subst hif
      exact ⟨ha, le_of_not_lt hlt⟩
  · rintro ⟨ha, hle⟩
    exact ⟨r, ha, by rw [if_neg (not_lt.mpr hle)]⟩

theorem computeResolved_no_time_no_end (d : DateOccurrence) (sd : Int)
    (hsd : d.startDate = some sd) (ht : parseTime d.startTime = none) (hed : d.endDate = none) :
    computeResolved d = some ⟨⟨sd, 0⟩, ⟨sd, 0⟩⟩ := by
  unfold computeResolved
  rw [hsd, ht, hed]

theorem computeResolved_no_time_end (d : DateOccurrence) (sd ed : Int)
    (hsd : d.startDate = some sd) (ht : parseTime d.startTime = none) (hed : d.endDate = some ed) :
    computeResolved d = some ⟨⟨sd, 0⟩, ⟨ed, 0⟩⟩ := by
  unfold computeResolved
  rw [hsd, ht, hed]

theorem computeResolved_time_noRecompute (d : DateOccurrence) (sd ed : Int) (t : TimeHM)
    (hsd : d.startDate = some sd) (ht : parseTime d.startTime = some t)
    (hed : d.endDate = some ed) (hod : d.oneday = false) :
    computeResolved d = some ⟨setHoursMin ⟨sd, 0⟩ t.hours t.minutes, ⟨ed, 0⟩⟩ := by
  unfold computeResolved
  rw [hsd, ht, hed]
  simp [hod]

/-- Claim C2 (amended): with a parsed start time and a recomputed end (no
end date or `oneday`), and a time of day that stays within the calendar
day even after adding the default duration, the resolved start is the
parsed date at that time of day and the resolved end is two hours later on
the same calendar date. -/
theorem c2_amended (now : Int) (d : DateOccurrence) (sd : Int) (t : TimeHM) (r : Resolved)
    (hsd : d.startDate = some sd) (ht : parseTime d.startTime = some t)
    (hre : d.endDate = none ∨ d.oneday = true)
    (hm : t.minutes ≤ 59) (hh : t.hours + 2 ≤ 23)
    (hr : parseDateOccurrence now d = some r) :
    r.start = ⟨sd, t.hours * 60 + t.minutes⟩ ∧
    r.«end» = ⟨sd, (t.hours + 2) * 60 + t.minutes⟩ ∧
    r.«end».toMin = r.start.toMin + 120 := by
  rw [parseDateOccurrence_some] at hr
  obtain ⟨hc, -⟩ := hr
  rw [computeResolved_time_recompute d sd t hsd ht hre] at hc
  have hb1 : t.hours * 60 + t.minutes < 1440 := by omega
  have hb2 : (t.hours + 2) * 60 + t.minutes < 1440 := by omega
  rw [setHoursMin_of_lt _ _ _ hb1] at hc
  rw [setHoursMin_of_lt _ _ _ hb2] at hc
  rw [Option.some_inj] at hc
  subst hc
  refine ⟨rfl, rfl, ?_⟩
  unfold DateTime.toMin
  dsimp
  omega

/-- Claim C2 counterexample: a `oneday` occurrence at start time `23h30`
with no end date resolves with `end` on the following calendar date, not
on the same date as `start`. -/
theorem c2_counterexample :
    (parseDateOccurrence 0 occ23h30).map (fun r => (r.start.day, r.«end».day)) = some (1, 2) ∧
    (1 : Int) ≠ 2 := by
  exact ⟨by decide, by decide⟩

theorem c2_witness :
    parseDateOccurrence 0 occ14h30 =
      some { start := ⟨20000, 870⟩, «end» := ⟨20000, 990⟩ } ∧
    (⟨20000, 870⟩ : DateTime) = ⟨20000, 14 * 60 + 30⟩ ∧
    (⟨20000, 990⟩ : DateTime).toMin = (⟨20000, 870⟩ : DateTime).toMin + 120 := by
  have h := c2_amended 0 occ14h30 20000 ⟨14, 30⟩ { start := ⟨20000, 870⟩, «end» := ⟨20000, 990⟩ }
    (by decide) (by decide) (Or.inl (by decide)) (by decide) (by decide) (by decide)
  exact ⟨by decide, h.1 ▸ rfl, h.2.2⟩

/-- Claim C3 (amended): the resolver's output satisfies `end >= start`
under the guard `c3Guard` (any supplied end date on or after the resolved
start; automatic when the end is recomputed). -/
theorem c3_amended (now : Int) (d : DateOccurrence) (r : Resolved)
    (hr : parseDateOccurrence now d = some r) (hg : c3Guard d = true) :
    r.start.toMin ≤ r.«end».toMin := by
  rw [parseDateOccurrence_some] at hr
  obtain ⟨hc, -⟩ := hr
  unfold c3Guard at hg
  cases hsd : d.startDate with
  | none =>
    unfold computeResolved at hc
    rw [hsd] at hc
    cases hc
  | some sd =>
    rw [hsd] at hg
    cases ht : parseTime d.startTime with
    | none =>
      rw [ht] at hg
      cases hed : d.endDate with
      | none =>
        rw [computeResolved_no_time_no_end d sd hsd ht hed, Option.some_inj] at hc
        subst hc
        exact le_refl _
      | some ed =>
        rw [hed] at hg
        rw [computeResolved_no_time_end d sd ed hsd ht hed, Option.some_inj] at hc
        subst hc
        have hse : sd ≤ ed := by
          simpa using hg
        unfold DateTime.toMin
        dsimp
        omega
    | some t =>
      rw [ht] at hg
      cases hed : d.endDate with
      | none =>
        rw [computeResolved_time_recompute d sd t hsd ht (Or.inl hed), Option.some_inj] at hc
        subst hc
        dsimp
        rw [toMin_setHoursMin]
        unfold DateTime.toMin setHoursMin
        dsimp
        have h1 : (t.hours * 60 + t.minutes) % 1440 ≤ t.hours * 60 + t.minutes := Nat.mod_le _ _
        push_cast
        omega
      | some ed =>
        rw [hed] at hg
        cases hod : d.oneday with
        | true =>
          rw [computeResolved_time_recompute d sd t hsd ht (Or.inr hod), Option.some_inj] at hc
          subst hc
          dsimp
          rw [toMin_setHoursMin]
          unfold DateTime.toMin setHoursMin
          dsimp
          have h1 : (t.hours * 60 + t.minutes) % 1440 ≤ t.hours * 60 + t.minutes := Nat.mod_le _ _
          push_cast
          omega
        | false =>
          rw [hod] at hg
          have hse : sd * 1440 + ((t.hours * 60 + t.minutes : Nat) : Int) ≤ ed * 1440 := by
            simpa using hg
          rw [computeResolved_time_noRecompute d sd ed t hsd ht hed hod, Option.some_inj] at hc
          subst hc
          dsimp
          rw [toMin_setHoursMin]
          unfold DateTime.toMin
          dsimp
          omega

/-- Claim C3 counterexample: an occurrence whose supplied end date
precedes its start date resolves (for an early enough `now`) to a pair
with `end` strictly before `start`. -/
theorem c3_counterexample :
    parseDateOccurrence 0 occEndBeforeStart = some ⟨⟨10, 0⟩, ⟨5, 0⟩⟩ ∧
    (⟨5, 0⟩ : DateTime).toMin < (⟨10, 0⟩ : DateTime).toMin := by
  exact ⟨by decide, by decide⟩

theorem c3_witness :
    parseDateOccurrence 0 occSameDayPair = some ⟨⟨10, 0⟩, ⟨12, 0⟩⟩ ∧
    (⟨10, 0⟩ : DateTime).toMin ≤ (⟨12, 0⟩ : DateTime).toMin := by
  exact ⟨by decide,
    c3_amended 0 occSameDayPair ⟨⟨10, 0⟩, ⟨12, 0⟩⟩ (by decide) (by decide)⟩

/-- Claim C7: an occurrence whose resolved end lies strictly before `now`
is resolved to `none`, and every occurrence surviving into
`parseEventDates` has its end at or after `now`; the emitted feed never
contains past events. -/
theorem c7_pastExcluded (now : Int) (d : DateOccurrence) (r : Resolved) :
    (computeResolved d = some r → r.«end».toMin < now → parseDateOccurrence now d = none) ∧
    (∀ event : Event, r ∈ parseEventDates now event → now ≤ r.«end».toMin) := by
  constructor
  · intro hc hlt
    unfold parseDateOccurrence
    rw [hc]
    simp [hlt]
  · intro event hmem
    unfold parseEventDates at hmem
    rw [List.mem_filterMap] at hmem
    obtain ⟨o, ho, hid⟩ := hmem
    rw [List.mem_map] at ho
    obtain ⟨d', _, rfl⟩ := ho
    simp only [id] at hid
    exact ((parseDateOccurrence_some now d' r).mp hid).2

theorem c7_witness :
    parseDateOccurrence (10 * 1440 + 5) occPast = none ∧
    computeResolved occPast = some ⟨⟨3, 0⟩, ⟨3, 0⟩⟩ := by
  refine ⟨?_, by decide⟩
  exact (c7_pastExcluded (10 * 1440 + 5) occPast ⟨⟨3, 0⟩, ⟨3, 0⟩⟩).1 (by decide) (by decide)

/-! ## Lemmas about the event filter -/

theorem any_replicate_false {α : Type} (f : α → Bool) (x : α) (hf : f x = false) :
    ∀ k, (List.replicate k x).any f = false := by
  intro k
  induction k with
  | zero => rfl
  | succ k ih => rw [List.replicate_succ, List.any_cons, hf, ih]; rfl

theorem filterMap_replicate_some {α β : Type} (f : α → Option β) (x : α) (y : β)
    (h : f x = some y) : ∀ k, (List.replicate k x).filterMap f = List.replicate k y := by
  intro k
  induction k with
  | zero => rfl
  | succ k ih => rw [List.replicate_succ, List.filterMap_cons, h, ih, List.replicate_succ]

theorem sortInts_replicate (k : Nat) (d : Int) :
    sortInts (List.replicate k d) = List.replicate k d := by
  induction k with
  | zero => rfl
  | succ k ih =>
    rw [List.replicate_succ]
    unfold sortInts at ih ⊢
    rw [List.foldr_cons, ih]
    cases k with
    | zero => rfl
    | succ k =>
      rw [List.replicate_succ]
      unfold insertSorted
      rw [if_pos (le_refl d), ← List.replicate_succ]

theorem getLastD_replicate (d : Int) : ∀ (k : Nat) (x : Int), (List.replicate (k + 1) d).getLastD x = d
  | 0, _ => rfl
  | k + 1, x => by
    rw [List.replicate_succ, List.getLastD_cons]
    exact getLastD_replicate d k d

/-- Claim C4 counterexample: an event with `type = "EXPOSITION"` but a
title without exhibition keywords passes the filter. -/
theorem c4_counterexample :
    evC4.type = some ("EXPOSITION".toList) ∧ eventExcluded evC4 = false := by
  exact ⟨rfl, by decide⟩

/-- Claim C4 (amended): the exhibition exclusion is a case-insensitive
substring match of the event title against "expo"/"exhibition"; the `type`
field is never consulted by the filter. -/
theorem c4_amended :
    (∀ (event : Event) (s : List Char), event.title = some s →
      (includesSub (lowerStr s) ("expo".toList) = true ∨
        includesSub (lowerStr s) ("exhibition".toList) = true) →
      eventExcluded event = true) ∧
    (∀ (event : Event) (ty : Option (List Char)),
      eventExcluded { event with type := ty } = eventExcluded event) := by
  constructor
  · intro event s hs hkw
    have hx : isExposition event = true := by
      unfold isExposition
      rw [hs]
      show (includesSub (lowerStr s) ("expo".toList) ||
        includesSub (lowerStr s) ("exhibition".toList)) = true
      rcases hkw with h | h
      · rw [h, Bool.true_or]
      · rw [h, Bool.or_true]
    unfold eventExcluded
    rw [hx, Bool.or_true]
  · intro event ty
    rfl

theorem c4_witness : eventExcluded evExpoTitle = true := by
  exact c4_amended.1 evExpoTitle (("Grande EXPO d'été".toList)) rfl (Or.inl (by decide))

/-- Claim C5 counterexample: an event with 25 occurrences (all on one day)
is not excluded by the filter. -/
theorem c5_counterexample :
    ev25.dates.length = 25 ∧ eventExcluded ev25 = false := by
  exact ⟨by decide, by decide⟩

/-- Claim C5 (amended): the filter has no occurrence-count ceiling: an
event whose occurrences all share one start date (and carry no end date)
is retained no matter how many occurrences it has; only the 31-day span
checks and the title keywords can exclude it. -/
theorem c5_amended (n : Nat) :
    (concertEvent n).dates.length = n ∧ eventExcluded (concertEvent n) = false := by
  have hd : (concertEvent n).dates = List.replicate n occSameDay := rfl
  constructor
  · rw [hd, List.length_replicate]
  · have hexp : isExposition (concertEvent n) = false := by
      have ht : (concertEvent n).title = some ("Concert".toList) := rfl
      unfold isExposition
      rw [ht]
      decide
    have htl : isEventTooLong (concertEvent n) = false := by
      unfold isEventTooLong
      rw [hd]
      cases n with
      | zero => rfl
      | succ n =>
        have h1 : (List.replicate (n + 1) occSameDay).isEmpty = false := by
          rw [List.replicate_succ]; rfl
        have h2 : (List.replicate (n + 1) occSameDay).any (fun d =>
            match d.startDate, d.endDate with
            | some s, some e => decide ((e - s : Int) > 31)
            | _, _ => false) = false := any_replicate_false _ _ rfl _
        rw [h1, h2]
        simp only [Bool.false_eq_true, if_false]
        rw [filterMap_replicate_some DateOccurrence.startDate occSameDay 20000 rfl,
          sortInts_replicate, List.length_replicate]
        by_cases hn : 2 ≤ n + 1
        · rw [if_pos hn]
          cases n with
          | zero => omega
          | succ n =>
            rw [getLastD_replicate 20000 (n + 1) 0]
            have hh : (List.replicate (n + 1 + 1) (20000 : Int)).headD 0 = 20000 := by
              rw [List.replicate_succ]; rfl
            rw [hh]
            decide
        · rw [if_neg hn]
    unfold eventExcluded
    rw [hexp, htl]
    rfl

/-- Claim C6: every emitted identifier is exactly
`sheetId-occurrenceIndex@pays-bigouden-calendar` with the zero-based index
into the event's resolved-occurrence list (and the identifier list is a
pure function of the event and `now`, hence stable across runs); the event
with id "123" and two resolved occurrences yields exactly the ids
`123-0@...` and `123-1@...`. -/
theorem c6_identifierFormat :
    (∀ (now : Int) (event : Event),
      (generateEventIds now event).length = (parseEventDates now event).length ∧
      ∀ i : Nat, i < (parseEventDates now event).length →
        (generateEventIds now event)[i]? =
          some (event.sheetId ++ ('-' :: Nat.toDigits 10 i) ++ feedNamespace)) ∧
    generateEventIds 0 ev123 =
      [("123-0@pays-bigouden-calendar".toList), ("123-1@pays-bigouden-calendar".toList)] := by
  constructor
  · intro now event
    constructor
    · unfold generateEventIds
      rw [List.length_map, List.length_range]
    · intro i hi
      unfold generateEventIds
      rw [List.getElem?_map, List.getElem?_range hi]
      rfl
  · decide

theorem c6_witness :
    (generateEventIds 0 ev123)[1]? =
      some (("123".toList) ++ ('-' :: Nat.toDigits 10 1) ++ feedNamespace) := by
  exact (c6_identifierFormat.1 0 ev123).2 1 (by decide)

/-! ## Lemmas about the orchestrator deduplication -/

theorem mem_dedupStep {m : List Event} {oe : Option Event} {e : Event}
    (h : e ∈ dedupStep m oe) :
    e ∈ m ∨ (oe = some e ∧ m.any (fun x => x.sheetId == e.sheetId) = false) := by
  cases oe with
  | none => exact Or.inl h
  | some a =>
    simp only [dedupStep] at h
    by_cases hk : m.any (fun x => x.sheetId == a.sheetId) = true
    · rw [if_pos hk] at h
      exact Or.inl h
    · rw [if_neg hk] at h
      rcases List.mem_append.mp h with h1 | h1
      · exact Or.inl h1
      · rw [List.mem_singleton] at h1
        subst h1
        exact Or.inr ⟨rfl, Bool.eq_false_iff.mpr hk⟩

theorem any_dedupStep_mono {m : List Event} {oe : Option Event} {k : List Char}
    (h : m.any (fun x => x.sheetId == k) = true) :
    (dedupStep m oe).any (fun x => x.sheetId == k) = true := by
  cases oe with
  | none => exact h
  | some a =>
    simp only [dedupStep]
    by_cases hk : m.any (fun x => x.sheetId == a.sheetId) = true
    · rw [if_pos hk]; exact h
    · rw [if_neg hk, List.any_append, h, Bool.true_or]

theorem any_dedupStep_self (m : List Event) (a : Event) :
    (dedupStep m (some a)).any (fun x => x.sheetId == a.sheetId) = true := by
  simp only [dedupStep]
  by_cases hk : m.any (fun x => x.sheetId == a.sheetId) = true
  · rw [if_pos hk]; exact hk
  · rw [if_neg hk, List.any_append]
    have : List.any [a] (fun x => x.sheetId == a.sheetId) = true := by
      rw [List.any_cons]
      simp
    rw [this, Bool.or_true]

theorem pairwise_dedupStep {m : List Event} {oe : Option Event}
    (h : m.Pairwise (fun a b => a.sheetId ≠ b.sheetId)) :
    (dedupStep m oe).Pairwise (fun a b => a.sheetId ≠ b.sheetId) := by
  cases oe with
  | none => exact h
  | some a =>
    simp only [dedupStep]
    by_cases hk : m.any (fun x => x.sheetId == a.sheetId) = true
    · rw [if_pos hk]; exact h
    · rw [if_neg hk]
      rw [List.pairwise_append]
      refine ⟨h, List.pairwise_singleton _ _, ?_⟩
      intro x hx y hy
      rw [List.mem_singleton] at hy
      subst hy
      intro hEq
      apply hk
      rw [List.any_eq_true]
      exact ⟨x, hx, by rw [beq_iff_eq]; exact hEq⟩

theorem foldl_dedup_pairwise (rs : List (Option Event)) :
    ∀ m : List Event, m.Pairwise (fun a b => a.sheetId ≠ b.sheetId) →
      (rs.foldl dedupStep m).Pairwise (fun a b => a.sheetId ≠ b.sheetId) := by
  induction rs with
  | nil => exact fun m h => h
  | cons oe rs ih =>
    intro m h
    rw [List.foldl_cons]
    exact ih _ (pairwise_dedupStep h)

theorem foldl_dedup_any_mono (rs : List (Option Event)) :
    ∀ (m : List Event) (k : List Char), m.any (fun x => x.sheetId == k) = true →
      (rs.foldl dedupStep m).any (fun x => x.sheetId == k) = true := by
  induction rs with
  | nil => exact fun m k h => h
  | cons oe rs ih =>
    intro m k h
    rw [List.foldl_cons]
    exact ih _ k (any_dedupStep_mono h)

theorem foldl_dedup_first (rs : List (Option Event)) :
    ∀ (m : List Event) (e : Event), e ∈ rs.foldl dedupStep m →
      e ∈ m ∨ ((rs.filterMap id).find? (fun x => x.sheetId == e.sheetId) = some e ∧
        m.any (fun x => x.sheetId == e.sheetId) = false) := by
  induction rs with
  | nil => exact fun m e h => Or.inl h
  | cons oe rs ih =>
    intro m e h
    rw [List.foldl_cons] at h
    rcases ih _ e h with h1 | ⟨hfind, hany⟩
    · rcases mem_dedupStep h1 with h2 | ⟨rfl, hany⟩
      · exact Or.inl h2
      · refine Or.inr ⟨?_, hany⟩
        rw [List.filterMap_cons]
        dsimp only [id]
        rw [List.find?_cons_of_pos _ (by simp)]
    · have hmany : m.any (fun x => x.sheetId == e.sheetId) = false := by
        by_cases h2 : m.any (fun x => x.sheetId == e.sheetId) = true
        · rw [any_dedupStep_mono h2] at hany
          cases hany
        · exact Bool.eq_false_iff.mpr h2
      cases oe with
      | none =>
        exact Or.inr ⟨by rw [List.filterMap_cons]; exact hfind, hmany⟩
      | some a =>
        have hne : (a.sheetId == e.sheetId) = false := by
          by_cases h2 : (a.sheetId == e.sheetId) = true
          · rw [beq_iff_eq] at h2
            have h3 := any_dedupStep_self m a
            rw [h2] at h3
            rw [h3] at hany
            cases hany
          · exact Bool.eq_false_iff.mpr h2
        refine Or.inr ⟨?_, hmany⟩
        rw [List.filterMap_cons]
        dsimp only [id]
        rw [List.find?_cons_of_neg _ (by rw [hne]; exact Bool.false_ne_true)]
        exact hfind

theorem foldl_dedup_covers (rs : List (Option Event)) :
    ∀ (m : List Event) (x : Event), x ∈ rs.filterMap id →
      (rs.foldl dedupStep m).any (fun y => y.sheetId == x.sheetId) = true := by
  induction rs with
  | nil => intro m x h; cases h
  | cons oe rs ih =>
    intro m x h
    rw [List.foldl_cons]
    rw [List.filterMap_cons] at h
    cases oe with
    | none => exact ih _ x h
    | some a =>
      dsimp only [id] at h
      rcases List.mem_cons.mp h with rfl | h1
      · exact foldl_dedup_any_mono rs _ _ (any_dedupStep_self m x)
      · exact ih _ x h1

/-- Claim C8: the deduplicated result contains no two entries with the
same `sheetId`; each surviving entry is the first event with its id in
processing order (later duplicates are dropped), and no id is lost. -/
theorem c8_dedup (results : List (Option Event)) :
    (fetchAllEventsDedup results).Pairwise (fun a b => a.sheetId ≠ b.sheetId) ∧
    (∀ e ∈ fetchAllEventsDedup results,
      (results.filterMap id).find? (fun x => x.sheetId == e.sheetId) = some e) ∧
    (∀ x ∈ results.filterMap id,
      (fetchAllEventsDedup results).any (fun y => y.sheetId == x.sheetId) = true) := by
  refine ⟨foldl_dedup_pairwise results [] (List.Pairwise.nil), ?_, ?_⟩
  · intro e he
    rcases foldl_dedup_first results [] e he with h | ⟨hfind, -⟩
    · cases h
    · exact hfind
  · intro x hx
    exact foldl_dedup_covers results [] x hx

theorem c8_witness :
    fetchAllEventsDedup dedupSample =
      [{ baseEvent with sheetId := "A".toList },
       { baseEvent with sheetId := "B".toList, title := some ("first".toList) },
       { baseEvent with sheetId := "C".toList }] ∧
    (dedupSample.filterMap id).find?
        (fun x => x.sheetId == ("B".toList)) =
      some { baseEvent with sheetId := "B".toList, title := some ("first".toList) } := by
  refine ⟨by decide, ?_⟩
  exact (c8_dedup dedupSample).2.1
    { baseEvent with sheetId := "B".toList, title := some ("first".toList) } (by decide)

/-- Claim C9 counterexample: a record whose `geolocations` object carries a
latitude but no longitude still yields a present (non-null) `gps` on the
normalized event. -/
theorem c9_counterexample :
    hw9.geolocations = some { latitude := some ("47.8".toList), longitude := none } ∧
    (transformHwSheetToEvent hw9 ("u".toList)).gps =
      some { latitude := some ("47.8".toList), longitude := none } ∧
    (transformHwSheetToEvent hw9 ("u".toList)).gps ≠ none := by
  refine ⟨rfl, rfl, ?_⟩
  intro h
  cases h

/-- Claim C9 (amended): `gps` is present exactly when the source record
has a `geolocations` object, whose latitude/longitude fields are copied
as-is and may individually be absent. -/
theorem c9_amended (hwSheet : HwSheet) (url : List Char) :
    ((transformHwSheetToEvent hwSheet url).gps = none ↔ hwSheet.geolocations = none) ∧
    (∀ g : Geolocations, hwSheet.geolocations = some g →
      (transformHwSheetToEvent hwSheet url).gps =
        some { latitude := g.latitude, longitude := g.longitude }) := by
  have hg : (transformHwSheetToEvent hwSheet url).gps =
      hwSheet.geolocations.map (fun g => { latitude := g.latitude, longitude := g.longitude }) := rfl
  constructor
  · rw [hg]
    cases hwSheet.geolocations <;> simp
  · intro g h
    rw [hg, h]
    rfl

theorem c9_witness :
    (transformHwSheetToEvent hw9 ("url".toList)).gps =
      some { latitude := some ("47.8".toList), longitude := none } := by
  exact (c9_amended hw9 ("url".toList)).2
    { latitude := some ("47.8".toList), longitude := none } rfl

/-! ## Lemmas about location building -/

theorem includesSub_iff (needle hay : List Char) :
    includesSub hay needle = true ↔ needle <:+: hay := by
  induction hay with
  | nil =>
    unfold includesSub
    rw [ List.isPrefixOf_iff_prefix]
    constructor
    · intro h
      exact h.isInfix
    · intro h
      exact (List.infix_nil.mp h) ▸ List.nil_prefix
  | cons c t ih =>
    unfold includesSub
    rw [Bool.or_eq_true, List.isPrefixOf_iff_prefix, ih]
    exact (List.infix_cons_iff).symm

theorem replaceNewlines_append (a b : List Char) :
    replaceNewlines (a ++ b) = replaceNewlines a ++ replaceNewlines b := by
  induction a with
  | nil => rfl
  | cons c t ih =>
    rw [List.cons_append]
    simp only [replaceNewlines]
    by_cases hc : c = '\n'
    · rw [if_pos hc, if_pos hc, ih, List.cons_append, List.cons_append]
    · rw [if_neg hc, if_neg hc, ih, List.cons_append]

theorem replaceNewlines_no_nl (s : List Char) : ∀ c ∈ replaceNewlines s, c ≠ '\n' := by
  induction s with
  | nil => intro c h; cases h
  | cons x t ih =>
    intro c h
    unfold replaceNewlines at h
    by_cases hx : x = '\n'
    · rw [if_pos hx] at h
      rcases List.mem_cons.mp h with rfl | h1
      · intro h2; cases h2
      · rcases List.mem_cons.mp h1 with rfl | h2
        · intro h2; cases h2
        · exact ih c h2
    · rw [if_neg hx] at h
      rcases List.mem_cons.mp h with rfl | h1
      · exact hx
      · exact ih c h1

theorem replaceNewlines_id_of_no_nl (s : List Char) (h : ∀ c ∈ s, c ≠ '\n') :
    replaceNewlines s = s := by
  induction s with
  | nil => rfl
  | cons x t ih =>
    unfold replaceNewlines
    rw [if_neg (h x (List.mem_cons_self x t)), ih (fun c hc => h c (List.mem_cons_of_mem x hc))]

theorem includesSub_replaceNewlines (a t : List Char)
    (hinf : t <:+: a) (hnl : ∀ c ∈ t, c ≠ '\n') :
    includesSub (replaceNewlines a) t = true := by
  rw [includesSub_iff]
  obtain ⟨u, v, huv⟩ := hinf
  subst huv
  rw [replaceNewlines_append, replaceNewlines_append, replaceNewlines_id_of_no_nl t hnl]
  exact ⟨replaceNewlines u, replaceNewlines v, rfl⟩

theorem joinParts_pair (p q : List Char) : joinParts [p, q] = p ++ ' ' :: '-' :: ' ' :: q := rfl

theorem mem_dash_sep {p q : List Char} {c : Char}
    (h : c ∈ p ++ ' ' :: '-' :: ' ' :: q) : c ∈ p ∨ c = ' ' ∨ c = '-' ∨ c ∈ q := by
  rcases List.mem_append.mp h with h1 | h1
  · exact Or.inl h1
  · rcases List.mem_cons.mp h1 with rfl | h2
    · exact Or.inr (Or.inl rfl)
    · rcases List.mem_cons.mp h2 with rfl | h3
      · exact Or.inr (Or.inr (Or.inl rfl))
      · rcases List.mem_cons.mp h3 with rfl | h4
        · exact Or.inr (Or.inl rfl)
        · exact Or.inr (Or.inr (Or.inr h4))

/-- Claim C10: the built location equals the claimed formula (address with
newlines replaced, `" - "` plus the town exactly when the town is present
and not already a substring of the address, the town alone without an
address, empty without both); for newline-free towns it never contains a
newline and always contains a present town. -/
theorem c10_location (event : Event) :
    buildEventLocation event = locationSpecC10 event ∧
    ((∀ c ∈ event.town.getD [], c ≠ '\n') → ∀ c ∈ buildEventLocation event, c ≠ '\n') ∧
    (jsTruthy event.town = true → (∀ c ∈ event.town.getD [], c ≠ '\n') →
      includesSub (buildEventLocation event) (event.town.getD []) = true) := by
  cases haddr : event.address with
  | some a' =>
    by_cases hA : jsTruthy (some a') = true
    · by_cases hT : jsTruthy event.town = true
      · by_cases hI : includesSub a' (event.town.getD []) = true
        · have hb : buildEventLocation event = replaceNewlines a' := by
            unfold buildEventLocation
            rw [haddr]
            simp [hA, hT, hI, joinParts]
          have hs : locationSpecC10 event = replaceNewlines a' := by
            unfold locationSpecC10
            rw [haddr]
            simp [hA, hT, hI]
          refine ⟨hb.trans hs.symm, ?_, ?_⟩
          · intro _ c hc
            rw [hb] at hc
            exact replaceNewlines_no_nl a' c hc
          · intro _ hnl
            rw [hb]
            exact includesSub_replaceNewlines a' _ ((includesSub_iff _ _).mp hI) hnl
        · have hb : buildEventLocation event =
              replaceNewlines a' ++ ' ' :: '-' :: ' ' :: event.town.getD [] := by
            unfold buildEventLocation
            rw [haddr]
            simp [hA, hT, hI, joinParts]
          have hs : locationSpecC10 event =
              replaceNewlines a' ++ ' ' :: '-' :: ' ' :: event.town.getD [] := by
            unfold locationSpecC10
            rw [haddr]
            simp [hA, hT, hI]
          refine ⟨hb.trans hs.symm, ?_, ?_⟩
          · intro hnl c hc
            rw [hb] at hc
            rcases mem_dash_sep hc with h1 | h1 | h1 | h1
            · exact replaceNewlines_no_nl a' c h1
            · subst h1; decide
            · subst h1; decide
            · exact hnl c h1
          · intro _ _
            rw [hb, includesSub_iff]
            exact ⟨replaceNewlines a' ++ [' ', '-', ' '], [], by simp⟩
      · have hT' : jsTruthy event.town = false := Bool.eq_false_iff.mpr hT
        have hb : buildEventLocation event = replaceNewlines a' := by
          unfold buildEventLocation
          rw [haddr]
          simp [hA, hT', joinParts]
        have hs : locationSpecC10 event = replaceNewlines a' := by
          unfold locationSpecC10
          rw [haddr]
          simp [hA, hT']
        refine ⟨hb.trans hs.symm, ?_, ?_⟩
        · intro _ c hc
          rw [hb] at hc
          exact replaceNewlines_no_nl a' c hc
        · intro h1 _
          exact absurd h1 hT
    · have ha' : a' = [] := by
        unfold jsTruthy at hA
        rcases a' with _ | ⟨x, xs⟩
        · rfl
        · cases hA rfl
      subst ha'
      by_cases hT : jsTruthy event.town = true
      · have htne : event.town.getD [] ≠ [] := by
          cases htown : event.town with
          | none => rw [htown] at hT; cases hT
          | some t =>
            rw [htown] at hT
            unfold jsTruthy at hT
            rcases t with _ | ⟨x, xs⟩
            · cases hT
            · intro h; cases h
        have hI : includesSub [] (event.town.getD []) = false := by
          unfold includesSub
          cases htown2 : event.town.getD [] with
          | nil => exact absurd htown2 htne
          | cons c ts => rfl
        have hA2 : jsTruthy (some ([] : List Char)) = false := rfl
        have hb : buildEventLocation event = event.town.getD [] := by
          unfold buildEventLocation
          rw [haddr]
          simp [hA2, hT, hI, joinParts]
        have hs : locationSpecC10 event = event.town.getD [] := by
          unfold locationSpecC10
          rw [haddr]
          simp [hA2, hT]
        refine ⟨hb.trans hs.symm, ?_, ?_⟩
        · intro hnl c hc
          rw [hb] at hc
          exact hnl c hc
        · intro _ _
          rw [hb, includesSub_iff]
      · have hT' : jsTruthy event.town = false := Bool.eq_false_iff.mpr hT
        have hA2 : jsTruthy (some ([] : List Char)) = false := rfl
        have hb : buildEventLocation event = [] := by
          unfold buildEventLocation
          rw [haddr]
          simp [hA2, hT', joinParts]
        have hs : locationSpecC10 event = [] := by
          unfold locationSpecC10
          rw [haddr]
          simp [hA2, hT']
        refine ⟨hb.trans hs.symm, ?_, ?_⟩
        · intro _ c hc
          rw [hb] at hc
          cases hc
        · intro h1 _
          exact absurd h1 hT
  | none =>
    by_cases hT : jsTruthy event.town = true
    · have hN : jsTruthy none = false := rfl
      have hb : buildEventLocation event = event.town.getD [] := by
        unfold buildEventLocation
        rw [haddr]
        simp [hN, hT, joinParts]
      have hs : locationSpecC10 event = event.town.getD [] := by
        unfold locationSpecC10
        rw [haddr]
        simp [hN, hT]
      refine ⟨hb.trans hs.symm, ?_, ?_⟩
      · intro hnl c hc
        rw [hb] at hc
        exact hnl c hc
      · intro _ _
        rw [hb, includesSub_iff]
    · have hT' : jsTruthy event.town = false := Bool.eq_false_iff.mpr hT
      have hN : jsTruthy none = false := rfl
      have hb : buildEventLocation event = [] := by
        unfold buildEventLocation
        rw [haddr]
        simp [hN, hT', joinParts]
      have hs : locationSpecC10 event = [] := by
        unfold locationSpecC10
        rw [haddr]
        simp [hN, hT']
      refine ⟨hb.trans hs.symm, ?_, ?_⟩
      · intro _ c hc
        rw [hb] at hc
        cases hc
      · intro h1 _
        exact absurd h1 hT

theorem c10_witness :
    buildEventLocation evLoc = locationSpecC10 evLoc ∧
    buildEventLocation evLoc =
      ("3 rue X, BP 12 - Quimper".toList) ∧
    includesSub (buildEventLocation evLoc) (("Quimper".toList)) = true := by
  have h := c10_location evLoc
  exact ⟨h.1, by decide, h.2.2 (by decide) (by decide)⟩

/-! ## Lemmas about number rendering and parsing -/

theorem digitChar_isDigit {d : Nat} (h : d < 10) : (Nat.digitChar d).isDigit = true := by
  interval_cases d <;> decide

theorem digitChar_toNat {d : Nat} (h : d < 10) : (Nat.digitChar d).toNat - 48 = d := by
  interval_cases d <;> decide

theorem digitChar_ne_brace {d : Nat} (h : d < 10) :
    Nat.digitChar d ≠ '{' ∧ Nat.digitChar d ≠ '}' := by
  interval_cases d <;> exact ⟨by decide, by decide⟩

theorem natChars_ne_nil (n : Nat) : natChars n ≠ [] := by
  unfold natChars
  by_cases h : n = 0
  · rw [if_pos h]; intro hc; cases hc
  · rw [if_neg h]
    intro hc
    rw [List.reverse_eq_nil_iff, List.map_eq_nil_iff] at hc
    exact Nat.digits_ne_nil_iff_ne_zero.mpr h hc

theorem natChars_mem {n : Nat} {c : Char} (h : c ∈ natChars n) :
    ∃ d, d < 10 ∧ c = Nat.digitChar d := by
  unfold natChars at h
  by_cases h0 : n = 0
  · rw [if_pos h0, List.mem_singleton] at h
    exact ⟨0, by omega, h⟩
  · rw [if_neg h0, List.mem_reverse, List.mem_map] at h
    obtain ⟨d, hd, rfl⟩ := h
    exact ⟨d, Nat.digits_lt_base (by omega) hd, rfl⟩

theorem natChars_isDigit (n : Nat) : ∀ c ∈ natChars n, c.isDigit = true := by
  intro c h
  obtain ⟨d, hd, rfl⟩ := natChars_mem h
  exact digitChar_isDigit hd

theorem foldl_digits_reverse (l : List Nat) :
    ∀ acc : Nat, (l.reverse).foldl (fun a d => a * 10 + d) acc =
      acc * 10 ^ l.length + Nat.ofDigits 10 l := by
  induction l with
  | nil => intro acc; simp [Nat.ofDigits]
  | cons d t ih =>
    intro acc
    rw [List.reverse_cons, List.foldl_append, ih acc]
    simp only [List.foldl_cons, List.foldl_nil, Nat.ofDigits_cons, List.length_cons]
    ring

theorem foldl_natChars (n : Nat) :
    (natChars n).foldl (fun a c => a * 10 + (c.toNat - 48)) 0 = n := by
  unfold natChars
  by_cases h0 : n = 0
  · rw [if_pos h0]
    subst h0
    decide
  · rw [if_neg h0, ← List.map_reverse, List.foldl_map]
    have hext : ∀ (a : Nat), ∀ b ∈ (Nat.digits 10 n).reverse,
        a * 10 + ((Nat.digitChar b).toNat - 48) = a * 10 + b := by
      intro a b hb
      rw [digitChar_toNat (Nat.digits_lt_base (by omega) (List.mem_reverse.mp hb))]
    rw [List.foldl_ext _ _ 0 hext, foldl_digits_reverse, Nat.ofDigits_digits]
    simp

theorem takeWhile_digits_append (ds rest : List Char) (hds : ∀ c ∈ ds, c.isDigit = true)
    (hrest : ∀ c, rest.head? = some c → c.isDigit = false) :
    (ds ++ rest).takeWhile Char.isDigit = ds ∧ (ds ++ rest).dropWhile Char.isDigit = rest := by
  induction ds with
  | nil =>
    cases rest with
    | nil => exact ⟨rfl, rfl⟩
    | cons c t =>
      have hc := hrest c rfl
      simp [List.takeWhile_cons, List.dropWhile_cons, hc]
  | cons c t ih =>
    have hc := hds c (List.mem_cons_self c t)
    have iht := ih (fun x hx => hds x (List.mem_cons_of_mem c hx))
    rw [List.cons_append, List.takeWhile_cons, List.dropWhile_cons, hc]
    simp only [if_true]
    exact ⟨by rw [iht.1], iht.2⟩

theorem parseNatTok_natChars (n : Nat) (rest : List Char)
    (hrest : ∀ c, rest.head? = some c → c.isDigit = false) :
    parseNatTok (natChars n ++ rest) = some (n, rest) := by
  unfold parseNatTok
  obtain ⟨ht, hd⟩ := takeWhile_digits_append (natChars n) rest (natChars_isDigit n) hrest
  simp only [ht, hd]
  have hne : (natChars n).isEmpty = false := by
    cases hnc : natChars n with
    | nil => exact absurd hnc (natChars_ne_nil n)
    | cons c cs => rfl
  rw [hne]
  simp only [Bool.false_eq_true, if_false, foldl_natChars]

theorem parseStringBody_append (s rest : List Char) (hs : ∀ c ∈ s, c ≠ '"') :
    parseStringBody (s ++ '"' :: rest) = some (s, rest) := by
  induction s with
  | nil => rfl
  | cons c t ih =>
    rw [List.cons_append]
    unfold parseStringBody
    rw [if_neg (hs c (List.mem_cons_self c t)), ih (fun x hx => hs x (List.mem_cons_of_mem c hx))]
    rfl

theorem strOk_spec {s : List Char} (h : strOk s = true) :
    ∀ c ∈ s, c ≠ '{' ∧ c ≠ '}' ∧ c ≠ '"' ∧ c ≠ '\\' := by
  intro c hc
  have := List.all_eq_true.mp h c hc
  unfold strOkChar at this
  simp only [Bool.not_eq_true', Bool.or_eq_false_iff, beq_eq_false_iff_ne, ne_eq,
    decide_eq_false_iff_not] at this
  exact ⟨this.1.1.1.1, this.1.1.1.2, this.1.1.2, this.1.2⟩

theorem isDigit_ne_special {c : Char} (h : c.isDigit = true) :
    c ≠ '{' ∧ c ≠ '}' ∧ c ≠ ']' := by
  refine ⟨?_, ?_, ?_⟩ <;> intro heq <;> rw [heq] at h <;> exact absurd h (by decide)

theorem serializeJson_head (v : Json) :
    ∃ c cs, serializeJson v = c :: cs ∧ c ≠ ']' ∧ c ≠ '}' := by
  cases v with
  | null => exact ⟨'n', _, rfl, by decide, by decide⟩
  | bool b =>
    cases b
    · exact ⟨'f', _, rfl, by decide, by decide⟩
    · exact ⟨'t', _, rfl, by decide, by decide⟩
  | num n =>
    show ∃ c cs, intChars n = c :: cs ∧ c ≠ ']' ∧ c ≠ '}'
    unfold intChars
    by_cases hneg : n < 0
    · rw [if_pos hneg]
      exact ⟨'-', _, rfl, by decide, by decide⟩
    · rw [if_neg hneg]
      cases hnc : natChars n.toNat with
      | nil => exact absurd hnc (natChars_ne_nil _)
      | cons c cs =>
        have hd : c.isDigit = true :=
          natChars_isDigit n.toNat c (hnc ▸ List.mem_cons_self c cs)
        exact ⟨c, cs, rfl, (isDigit_ne_special hd).2.2, (isDigit_ne_special hd).2.1⟩
  | str s => exact ⟨'"', _, rfl, by decide, by decide⟩
  | arr es => exact ⟨'[', _, rfl, by decide, by decide⟩
  | obj fs => exact ⟨'{', _, rfl, by decide, by decide⟩

theorem scanLoop_through (cs : List Char) (hcs : ∀ c ∈ cs, c ≠ '{' ∧ c ≠ '}') :
    ∀ (rest : List Char) (bc : Int) (st : Bool) (i : Nat),
      scanLoop (cs ++ rest) bc st i = scanLoop rest bc st (i + cs.length) := by
  induction cs with
  | nil => intro rest bc st i; rfl
  | cons c t ih =>
    intro rest bc st i
    have hc := hcs c (List.mem_cons_self c t)
    have harith : i + (c :: t).length = (i + 1) + t.length := by
      rw [List.length_cons]; omega
    rw [List.cons_append, harith]
    conv_lhs => rw [scanLoop]
    rw [if_neg hc.1, if_neg hc.2]
    exact ih (fun x hx => hcs x (List.mem_cons_of_mem c hx)) rest bc st (i + 1)

theorem intChars_braceFree (n : Int) : ∀ c ∈ intChars n, c ≠ '{' ∧ c ≠ '}' := by
  intro c hc
  unfold intChars at hc
  by_cases hneg : n < 0
  · rw [if_pos hneg] at hc
    rcases List.mem_cons.mp hc with rfl | h1
    · exact ⟨by decide, by decide⟩
    · obtain ⟨d, hd, rfl⟩ := natChars_mem h1
      exact digitChar_ne_brace hd
  · rw [if_neg hneg] at hc
    obtain ⟨d, hd, rfl⟩ := natChars_mem hc
    exact digitChar_ne_brace hd

theorem bool_and_split {a b : Bool} (h : (a && b) = true) : a = true ∧ b = true := by
  rw [Bool.and_eq_true] at h
  exact h

mutual

theorem scanVal (v : Json) (hok : jsonOk v = true) (bc : Int) (hbc : 1 ≤ bc)
    (i : Nat) (rest : List Char) :
    scanLoop (serializeJson v ++ rest) bc true i =
      scanLoop rest bc true (i + (serializeJson v).length) := by
  cases v with
  | null => exact scanLoop_through _ (by decide) rest bc true i
  | bool b =>
    cases b
    · exact scanLoop_through _ (by decide) rest bc true i
    · exact scanLoop_through _ (by decide) rest bc true i
  | num n => exact scanLoop_through _ (intChars_braceFree n) rest bc true i
  | str s =>
    apply scanLoop_through
    intro c hc
    rcases List.mem_cons.mp hc with rfl | h1
    · exact ⟨by decide, by decide⟩
    · rcases List.mem_append.mp h1 with h2 | h2
      · have hsp := strOk_spec hok c h2
        exact ⟨hsp.1, hsp.2.1⟩
      · rw [List.mem_singleton] at h2
        subst h2
        exact ⟨by decide, by decide⟩
  | arr es =>
    rw [show serializeJson (Json.arr es) = '[' :: serializeElems es from rfl, List.cons_append]
    conv_lhs => rw [scanLoop]
    rw [if_neg (by decide : ¬('[' = '{')), if_neg (by decide : ¬('[' = '}'))]
    rw [scanElems es hok bc hbc (i + 1) rest]
    congr 1
    rw [List.length_cons]
    omega
  | obj fs =>
    rw [show serializeJson (Json.obj fs) = '{' :: serializeFields fs from rfl, List.cons_append]
    conv_lhs => rw [scanLoop]
    rw [if_pos rfl]
    rw [scanFieldsPass fs hok (bc + 1) (by omega) (i + 1) rest]
    have hb1 : bc + 1 - 1 = bc := by omega
    rw [hb1]
    congr 1
    rw [List.length_cons]
    omega

theorem scanElems (es : List Json) (hok : elemsOk es = true) (bc : Int) (hbc : 1 ≤ bc)
    (i : Nat) (rest : List Char) :
    scanLoop (serializeElems es ++ rest) bc true i =
      scanLoop rest bc true (i + (serializeElems es).length) := by
  cases es with
  | nil => exact scanLoop_through _ (by decide) rest bc true i
  | cons e es' =>
    have hok2 := bool_and_split (show (jsonOk e && elemsOk es') = true from hok)
    rw [show serializeElems (e :: es') =
      serializeJson e ++ (if es'.isEmpty then [']'] else ',' :: serializeElems es') from rfl]
    rw [List.append_assoc, scanVal e hok2.1 bc hbc i _]
    cases es' with
    | nil =>
      rw [if_pos (show ([] : List Json).isEmpty = true from rfl)]
      rw [scanLoop_through [']'] (by decide) rest bc true _]
      congr 1
      simp only [List.length_append, List.length_cons, List.length_singleton, List.length_nil]
      omega
    | cons e2 es'' =>
      rw [if_neg (show ¬((e2 :: es'').isEmpty = true) from by simp)]
      rw [show (',' :: serializeElems (e2 :: es'')) ++ rest =
        [','] ++ (serializeElems (e2 :: es'') ++ rest) from by simp]
      rw [scanLoop_through [','] (by decide) _ bc true _]
      rw [scanElems (e2 :: es'') hok2.2 bc hbc _ rest]
      congr 1
      simp only [List.length_append, List.length_cons, List.length_singleton, List.length_nil]
      omega

theorem scanFieldsPass (fs : List (List Char × Json)) (hok : fieldsOk fs = true)
    (bc : Int) (hbc : 2 ≤ bc) (i : Nat) (rest : List Char) :
    scanLoop (serializeFields fs ++ rest) bc true i =
      scanLoop rest (bc - 1) true (i + (serializeFields fs).length) := by
  cases fs with
  | nil =>
    rw [show serializeFields [] = ['}'] from rfl, List.singleton_append]
    conv_lhs => rw [scanLoop]
    rw [if_neg (by decide : ¬('}' = '{')), if_pos rfl]
    rw [if_neg (by simp; omega)]
    rfl
  | cons kv fs' =>
    obtain ⟨k, v⟩ := kv
    have hok2 := bool_and_split (show ((strOk k && jsonOk v) && fieldsOk fs') = true from hok)
    have hok3 := bool_and_split hok2.1
    rw [show serializeFields ((k, v) :: fs') =
      ('"' :: k ++ ['"', ':']) ++ (serializeJson v ++
        (if fs'.isEmpty then ['}'] else ',' :: serializeFields fs')) from by simp [serializeFields]]
    rw [List.append_assoc]
    rw [scanLoop_through ('"' :: k ++ ['"', ':']) ?hbf _ bc true i]
    case hbf =>
      intro c hc
      rcases List.mem_cons.mp hc with rfl | h1
      · exact ⟨by decide, by decide⟩
      · rcases List.mem_append.mp h1 with h2 | h2
        · have hsp := strOk_spec hok3.1 c h2
          exact ⟨hsp.1, hsp.2.1⟩
        · rcases List.mem_cons.mp h2 with rfl | h3
          · exact ⟨by decide, by decide⟩
          · rw [List.mem_singleton] at h3
            subst h3
            exact ⟨by decide, by decide⟩
    rw [List.append_assoc, scanVal v hok3.2 bc (by omega) _ _]
    cases fs' with
    | nil =>
      rw [if_pos (show ([] : List (List Char × Json)).isEmpty = true from rfl), List.singleton_append]
      conv_lhs => rw [scanLoop]
      rw [if_neg (by decide : ¬('}' = '{')), if_pos rfl]
      rw [if_neg (by simp; omega)]
      congr 1
      simp only [List.length_append, List.length_cons, List.length_singleton, List.length_nil]
      omega
    | cons kv2 fs'' =>
      rw [if_neg (show ¬((kv2 :: fs'').isEmpty = true) from by simp)]
      rw [show (',' :: serializeFields (kv2 :: fs'')) ++ rest =
        [','] ++ (serializeFields (kv2 :: fs'') ++ rest) from by simp]
      rw [scanLoop_through [','] (by decide) _ bc true _]
      rw [scanFieldsPass (kv2 :: fs'') hok2.2 bc hbc _ rest]
      congr 1
      simp only [List.length_append, List.length_cons, List.length_singleton, List.length_nil]
      omega

end

theorem scanFieldsTop (fs : List (List Char × Json)) (hok : fieldsOk fs = true)
    (i : Nat) (rest : List Char) :
    scanLoop (serializeFields fs ++ rest) 1 true i =
      some (i + (serializeFields fs).length) := by
  cases fs with
  | nil =>
    rw [show serializeFields [] = ['}'] from rfl, List.singleton_append]
    conv_lhs => rw [scanLoop]
    rw [if_neg (by decide : ¬('}' = '{')), if_pos rfl]
    rw [if_pos (by simp)]
    rfl
  | cons kv fs' =>
    obtain ⟨k, v⟩ := kv
    have hok2 := bool_and_split (show ((strOk k && jsonOk v) && fieldsOk fs') = true from hok)
    have hok3 := bool_and_split hok2.1
    rw [show serializeFields ((k, v) :: fs') =
      ('"' :: k ++ ['"', ':']) ++ (serializeJson v ++
        (if fs'.isEmpty then ['}'] else ',' :: serializeFields fs')) from by simp [serializeFields]]
    rw [List.append_assoc]
    rw [scanLoop_through ('"' :: k ++ ['"', ':']) ?hbf2 _ 1 true i]
    case hbf2 =>
      intro c hc
      rcases List.mem_cons.mp hc with rfl | h1
      · exact ⟨by decide, by decide⟩
      · rcases List.mem_append.mp h1 with h2 | h2
        · have hsp := strOk_spec hok3.1 c h2
          exact ⟨hsp.1, hsp.2.1⟩
        · rcases List.mem_cons.mp h2 with rfl | h3
          · exact ⟨by decide, by decide⟩
          · rw [List.mem_singleton] at h3
            subst h3
            exact ⟨by decide, by decide⟩
    rw [List.append_assoc, scanVal v hok3.2 1 (by omega) _ _]
    cases fs' with
    | nil =>
      rw [if_pos (show ([] : List (List Char × Json)).isEmpty = true from rfl), List.singleton_append]
      conv_lhs => rw [scanLoop]
      rw [if_neg (by decide : ¬('}' = '{')), if_pos rfl]
      rw [if_pos (by simp)]
      congr 1
      simp only [List.length_append, List.length_cons, List.length_singleton, List.length_nil]
      omega
    | cons kv2 fs'' =>
      rw [if_neg (show ¬((kv2 :: fs'').isEmpty = true) from by simp)]
      rw [show (',' :: serializeFields (kv2 :: fs'')) ++ rest =
        [','] ++ (serializeFields (kv2 :: fs'') ++ rest) from by simp]
      rw [scanLoop_through [','] (by decide) _ 1 true _]
      rw [scanFieldsTop (kv2 :: fs'') hok2.2 _ rest]
      congr 1
      simp only [List.length_append, List.length_cons, List.length_singleton, List.length_nil]
      omega

theorem jsizeVal_pos (v : Json) : 1 ≤ jsizeVal v := by
  cases v <;> simp [jsizeVal]

mutual

theorem rt_val (v : Json) (hok : jsonOk v = true) (fuel : Nat) (hf : jsizeVal v ≤ fuel)
    (rest : List Char) (hnd : ∀ c, rest.head? = some c → c.isDigit = false) :
    parseVal fuel (serializeJson v ++ rest) = some (v, rest) := by
  cases fuel with
  | zero => exact absurd hf (by have := jsizeVal_pos v; omega)
  | succ fuel =>
  cases v with
  | null =>
    show parseVal (fuel + 1) ('n' :: 'u' :: 'l' :: 'l' :: rest) = some (.null, rest)
    simp [parseVal, List.isPrefixOf]
  | bool b =>
    cases b
    · show parseVal (fuel + 1) ('f' :: 'a' :: 'l' :: 's' :: 'e' :: rest) = some (.bool false, rest)
      simp [parseVal, List.isPrefixOf]
    · show parseVal (fuel + 1) ('t' :: 'r' :: 'u' :: 'e' :: rest) = some (.bool true, rest)
      simp [parseVal, List.isPrefixOf]
  | num n =>
    by_cases hneg : n < 0
    · have hser : serializeJson (.num n) = '-' :: natChars n.natAbs := by
        show intChars n = _
        unfold intChars
        rw [if_pos hneg]
      rw [hser, List.cons_append]
      rw [parseVal]
      rw [parseNatTok_natChars n.natAbs rest hnd]
      simp only [Option.map_some']
      have habs : -(n.natAbs : Int) = n := by omega
      rw [habs]
    · obtain ⟨c, cs, hnc⟩ : ∃ c cs, natChars n.toNat = c :: cs := by
        cases h : natChars n.toNat with
        | nil => exact absurd h (natChars_ne_nil _)
        | cons c cs => exact ⟨c, cs, rfl⟩
      have hdig : c.isDigit = true := natChars_isDigit n.toNat c (hnc ▸ List.mem_cons_self c cs)
      have hser : serializeJson (.num n) = c :: cs := by
        show intChars n = _
        unfold intChars
        rw [if_neg hneg, hnc]
      rw [hser, List.cons_append]
      rw [parseVal]
      all_goals try (intro h; rw [h] at hdig; exact absurd hdig (by decide))
      rw [if_pos hdig]
      rw [show c :: (cs ++ rest) = (c :: cs) ++ rest from rfl, ← hnc,
        parseNatTok_natChars n.toNat rest hnd]
      simp only [Option.map_some']
      have htn : (n.toNat : Int) = n := by omega
      rw [htn]
  | str s =>
    have hq : ∀ c ∈ s, c ≠ '"' := fun c hc => (strOk_spec hok c hc).2.2.1
    rw [show serializeJson (.str s) = '"' :: (s ++ ['"']) from rfl, List.cons_append,
      List.append_assoc, List.singleton_append]
    simp [parseVal, parseStringBody_append s rest hq]
  | arr es =>
    cases es with
    | nil =>
      show parseVal (fuel + 1) ('[' :: ']' :: rest) = some (.arr [], rest)
      simp [parseVal]
    | cons e es' =>
      have hsz : jsizeElems (e :: es') ≤ fuel := by
        have h1 : jsizeVal (.arr (e :: es')) = 1 + jsizeElems (e :: es') := rfl
        omega
      obtain ⟨c, cs, hserh, hc1, hc2⟩ := serializeJson_head e
      have hdecomp : serializeElems (e :: es') ++ rest =
          c :: (cs ++ ((if es'.isEmpty then [']'] else ',' :: serializeElems es') ++ rest)) := by
        rw [show serializeElems (e :: es') =
          serializeJson e ++ (if es'.isEmpty then [']'] else ',' :: serializeElems es') from rfl,
          hserh]
        simp
      rw [show serializeJson (.arr (e :: es')) = '[' :: serializeElems (e :: es') from rfl,
        List.cons_append]
      rw [parseVal]
      all_goals try
        (intro rest2 heq; rw [hdecomp, List.cons.injEq] at heq; exact absurd heq.1 hc1)
      rw [rt_elems e es' hok fuel hsz rest hnd]
      rfl
  | obj fs =>
    cases fs with
    | nil =>
      show parseVal (fuel + 1) ('{' :: '}' :: rest) = some (.obj [], rest)
      simp [parseVal]
    | cons kv fs' =>
      have hsz : jsizeFields (kv :: fs') ≤ fuel := by
        have h1 : jsizeVal (.obj (kv :: fs')) = 1 + jsizeFields (kv :: fs') := rfl
        omega
      have hrec : parseFields fuel (serializeFields (kv :: fs') ++ rest) =
          some (kv :: fs', rest) :=
        rt_fields kv.1 kv.2 fs' hok fuel hsz rest hnd
      have hfhead : ∃ tl, serializeFields (kv :: fs') ++ rest = '"' :: tl := by
        obtain ⟨k, v⟩ := kv
        refine ⟨(k ++ '"' :: ':' :: serializeJson v ++
          (if fs'.isEmpty then ['}'] else ',' :: serializeFields fs')) ++ rest, ?_⟩
        simp [serializeFields]
      rw [show serializeJson (.obj (kv :: fs')) = '{' :: serializeFields (kv :: fs') from rfl,
        List.cons_append]
      rw [parseVal]
      all_goals try
        (intro rest2 heq; obtain ⟨tl, htl⟩ := hfhead; rw [htl, List.cons.injEq] at heq;
          exact absurd heq.1 (by decide))
      rw [hrec]
      rfl
termination_by sizeOf v
decreasing_by all_goals (subst_vars; simp_arith)

theorem rt_elems (e : Json) (es' : List Json) (hok : elemsOk (e :: es') = true)
    (fuel : Nat) (hf : jsizeElems (e :: es') ≤ fuel)
    (rest : List Char) (hnd : ∀ c, rest.head? = some c → c.isDigit = false) :
    parseElems fuel (serializeElems (e :: es') ++ rest) = some (e :: es', rest) := by
  cases fuel with
  | zero =>
    exact absurd hf (by
      have h1 := jsizeVal_pos e
      have h2 : jsizeElems (e :: es') = 1 + jsizeVal e + jsizeElems es' := rfl
      omega)
  | succ fuel =>
  have hok2 := bool_and_split (show (jsonOk e && elemsOk es') = true from hok)
  have hszs : jsizeElems (e :: es') = 1 + jsizeVal e + jsizeElems es' := rfl
  rw [show serializeElems (e :: es') ++ rest =
    serializeJson e ++ ((if es'.isEmpty then [']'] else ',' :: serializeElems es') ++ rest) from by
      simp [serializeElems]]
  rw [parseElems]
  cases es' with
  | nil =>
    rw [if_pos (show ([] : List Json).isEmpty = true from rfl), List.singleton_append]
    rw [rt_val e hok2.1 fuel (by omega) (']' :: rest)
      (fun c hc => by rw [List.head?_cons, Option.some_inj] at hc; subst hc; decide)]
    rfl
  | cons e2 es'' =>
    rw [if_neg (show ¬((e2 :: es'').isEmpty = true) from by simp), List.cons_append]
    rw [rt_val e hok2.1 fuel (by omega) (',' :: (serializeElems (e2 :: es'') ++ rest))
      (fun c hc => by rw [List.head?_cons, Option.some_inj] at hc; subst hc; decide)]
    simp only [Option.some_bind]
    rw [rt_elems e2 es'' hok2.2 fuel (by
      have h3 : jsizeElems (e2 :: es'') = 1 + jsizeVal e2 + jsizeElems es'' := rfl
      omega) rest hnd]
    rfl
termination_by sizeOf (e :: es')
decreasing_by all_goals (subst_vars; simp_arith)

theorem rt_fields (k : List Char) (v : Json) (fs' : List (List Char × Json))
    (hok : fieldsOk ((k, v) :: fs') = true)
    (fuel : Nat) (hf : jsizeFields ((k, v) :: fs') ≤ fuel)
    (rest : List Char) (hnd : ∀ c, rest.head? = some c → c.isDigit = false) :
    parseFields fuel (serializeFields ((k, v) :: fs') ++ rest) = some ((k, v) :: fs', rest) := by
  cases fuel with
  | zero =>
    exact absurd hf (by
      have h1 := jsizeVal_pos v
      have h2 : jsizeFields ((k, v) :: fs') = 1 + jsizeVal v + jsizeFields fs' := rfl
      omega)
  | succ fuel =>
  have hok2 := bool_and_split (show ((strOk k && jsonOk v) && fieldsOk fs') = true from hok)
  have hok3 := bool_and_split hok2.1
  have hq : ∀ c ∈ k, c ≠ '"' := fun c hc => (strOk_spec hok3.1 c hc).2.2.1
  have hszf : jsizeFields ((k, v) :: fs') = 1 + jsizeVal v + jsizeFields fs' := rfl
  rw [show serializeFields ((k, v) :: fs') ++ rest =
    '"' :: (k ++ '"' :: (':' :: (serializeJson v ++
      ((if fs'.isEmpty then ['}'] else ',' :: serializeFields fs') ++ rest)))) from by
      simp [serializeFields]]
  rw [parseFields]
  rw [parseStringBody_append k _ hq]
  simp only [Option.some_bind]
  cases fs' with
  | nil =>
    rw [if_pos (show ([] : List (List Char × Json)).isEmpty = true from rfl), List.singleton_append]
    rw [rt_val v hok3.2 fuel (by omega) ('}' :: rest)
      (fun c hc => by rw [List.head?_cons, Option.some_inj] at hc; subst hc; decide)]
    rfl
  | cons kv2 fs'' =>
    have hsz2 : jsizeFields (kv2 :: fs'') ≤ fuel := by
      have h3 : jsizeFields ((k, v) :: kv2 :: fs'') =
          1 + jsizeVal v + jsizeFields (kv2 :: fs'') := rfl
      omega
    have hrec : parseFields fuel (serializeFields (kv2 :: fs'') ++ rest) =
        some (kv2 :: fs'', rest) :=
      rt_fields kv2.1 kv2.2 fs'' hok2.2 fuel hsz2 rest hnd
    rw [if_neg (show ¬((kv2 :: fs'').isEmpty = true) from by simp), List.cons_append]
    rw [rt_val v hok3.2 fuel (by omega) (',' :: (serializeFields (kv2 :: fs'') ++ rest))
      (fun c hc => by rw [List.head?_cons, Option.some_inj] at hc; subst hc; decide)]
    simp only [Option.some_bind]
    rw [hrec]
    rfl
termination_by sizeOf ((k, v) :: fs')
decreasing_by all_goals (subst_vars; simp_arith)

end

mutual

theorem jlen_val (v : Json) : jsizeVal v ≤ (serializeJson v).length := by
  cases v with
  | null => decide
  | bool b => cases b <;> decide
  | num n =>
    show 1 ≤ (intChars n).length
    refine List.length_pos.mpr ?_
    unfold intChars
    by_cases hneg : n < 0
    · rw [if_pos hneg]
      intro h
      cases h
    · rw [if_neg hneg]
      exact natChars_ne_nil _
  | str s =>
    show 1 ≤ ('"' :: (s ++ ['"'])).length
    simp
  | arr es =>
    cases es with
    | nil => decide
    | cons e es' =>
      have h1 := jlen_elems e es'
      show 1 + jsizeElems (e :: es') ≤ ('[' :: serializeElems (e :: es')).length
      rw [List.length_cons]
      omega
  | obj fs =>
    cases fs with
    | nil => decide
    | cons kv fs' =>
      have h1 := jlen_fields kv.1 kv.2 fs'
      have heta : ((kv.1, kv.2) : List Char × Json) = kv := rfl
      rw [heta] at h1
      show 1 + jsizeFields (kv :: fs') ≤ ('{' :: serializeFields (kv :: fs')).length
      rw [List.length_cons]
      omega
termination_by sizeOf v

theorem jlen_elems (e : Json) (es' : List Json) :
    jsizeElems (e :: es') ≤ (serializeElems (e :: es')).length := by
  have h1 := jlen_val e
  have hsz : jsizeElems (e :: es') = 1 + jsizeVal e + jsizeElems es' := rfl
  rw [show serializeElems (e :: es') =
    serializeJson e ++ (if es'.isEmpty then [']'] else ',' :: serializeElems es') from rfl]
  rw [List.length_append]
  cases es' with
  | nil =>
    rw [if_pos (show ([] : List Json).isEmpty = true from rfl)]
    have hz : jsizeElems ([] : List Json) = 0 := rfl
    simp only [List.length_singleton]
    omega
  | cons e2 es'' =>
    have h2 := jlen_elems e2 es''
    rw [if_neg (show ¬((e2 :: es'').isEmpty = true) from by simp)]
    rw [List.length_cons]
    omega
termination_by sizeOf (e :: es')

theorem jlen_fields (k : List Char) (v : Json) (fs' : List (List Char × Json)) :
    jsizeFields ((k, v) :: fs') ≤ (serializeFields ((k, v) :: fs')).length := by
  have h1 := jlen_val v
  have hsz : jsizeFields ((k, v) :: fs') = 1 + jsizeVal v + jsizeFields fs' := rfl
  rw [show serializeFields ((k, v) :: fs') =
    '"' :: k ++ '"' :: ':' :: serializeJson v ++
      (if fs'.isEmpty then ['}'] else ',' :: serializeFields fs') from rfl]
  simp only [List.cons_append, List.length_cons, List.length_append]
  cases fs' with
  | nil =>
    have hz : jsizeFields ([] : List (List Char × Json)) = 0 := rfl
    rw [if_pos (show ([] : List (List Char × Json)).isEmpty = true from rfl)]
    simp only [List.length_singleton]
    omega
  | cons kv2 fs'' =>
    have h2 := jlen_fields kv2.1 kv2.2 fs''
    have heta : ((kv2.1, kv2.2) : List Char × Json) = kv2 := rfl
    rw [heta] at h2
    rw [if_neg (show ¬((kv2 :: fs'').isEmpty = true) from by simp)]
    rw [List.length_cons]
    omega
termination_by sizeOf ((k, v) :: fs')

end

theorem parseJson_serializeJson (v : Json) (hok : jsonOk v = true) :
    parseJson (serializeJson v) = some v := by
  unfold parseJson
  have h := rt_val v hok ((serializeJson v).length + 1)
    (by have := jlen_val v; omega) []
    (fun c hc => by rw [List.head?_nil] at hc; cases hc)
  rw [List.append_nil] at h
  rw [h]

/-- Claim C1 (amended): for a document whose marker is first found right
before an embedded object literal all of whose string contents (keys and
values) avoid delimiter characters (and quotes, backslashes and control
characters, which the modelled deserializer does not unescape), the
extractor isolates exactly the literal's span and deserializes it to the
embedded value. -/
theorem c1_amended (p t : List Char) (fs : List (List Char × Json))
    (hok : jsonOk (Json.obj fs) = true)
    (hidx : strIndexOf (p ++ ("HwSheet = ".toList ++ (serializeJson (Json.obj fs) ++ t)))
      markerChars = some p.length) :
    extractHwSheetFromHtml (p ++ ("HwSheet = ".toList ++ (serializeJson (Json.obj fs) ++ t))) =
      some (Json.obj fs) := by
  have hok' : fieldsOk fs = true := hok
  have hdrop : (p ++ ("HwSheet = ".toList ++ (serializeJson (Json.obj fs) ++ t))).drop p.length =
      "HwSheet = ".toList ++ (serializeJson (Json.obj fs) ++ t) := List.drop_left p _
  have hscan : scanLoop ((p ++ ("HwSheet = ".toList ++ (serializeJson (Json.obj fs) ++ t))).drop
      p.length) 0 false 0 = some (11 + (serializeFields fs).length) := by
    rw [hdrop]
    rw [scanLoop_through ("HwSheet = ".toList) (by decide) _ 0 false 0]
    rw [show serializeJson (Json.obj fs) = '{' :: serializeFields fs from rfl, List.cons_append]
    rw [scanLoop]
    rw [if_pos rfl]
    show scanLoop (serializeFields fs ++ t) 1 true 11 = some (11 + (serializeFields fs).length)
    exact scanFieldsTop fs hok' 11 t
  have hdrop2 : (p ++ ("HwSheet = ".toList ++ (serializeJson (Json.obj fs) ++ t))).drop
      (p.length + 10) = serializeJson (Json.obj fs) ++ t := by
    rw [show p ++ ("HwSheet = ".toList ++ (serializeJson (Json.obj fs) ++ t)) =
      (p ++ "HwSheet = ".toList) ++ (serializeJson (Json.obj fs) ++ t) from
        (List.append_assoc _ _ _).symm]
    rw [show p.length + 10 = (p ++ "HwSheet = ".toList).length from by
      rw [List.length_append]; rfl]
    exact List.drop_left _ _
  have harith : p.length + (11 + (serializeFields fs).length) - (p.length + 10) =
      (serializeJson (Json.obj fs)).length := by
    rw [show (serializeJson (Json.obj fs)).length = ('{' :: serializeFields fs).length from rfl,
      List.length_cons]
    omega
  unfold extractHwSheetFromHtml
  rw [hidx]
  simp only [hscan]
  rw [hdrop2, harith]
  rw [List.take_left]
  exact parseJson_serializeJson _ hok


/-- Claim C1 counterexample: the literal embedding an object whose string
value contains a closing brace is valid (the modelled deserializer round
trips it), yet the extractor's brace-counting scan truncates the span at
the brace inside the string and extraction fails. -/
theorem c1_counterexample :
    parseJson (serializeJson vBrace) = some vBrace ∧
    extractHwSheetFromHtml ("HwSheet = ".toList ++ serializeJson vBrace) = none := by
  exact ⟨rfl, rfl⟩

theorem c1_witness :
    extractHwSheetFromHtml ([] ++ ("HwSheet = ".toList ++ (serializeJson vPlain ++ []))) =
      some vPlain := by
  exact c1_amended [] [] [(['k'], Json.str ['v'])] (by rfl) (by rfl)
